import Mathlib

/-!
A shallow embedding of the Carbon toolchain's lowering stage
(`toolchain/lowering/lowering_context.cpp`) in Lean 4, together with proofs
of the specified properties of `LoweringContext`.

The C++ source lowers a checked semantic IR (`SemanticsIR`) into LLVM IR.
Machine pointers and LLVM objects are modelled as explicit inductive values;
fallible operations (every `CARBON_CHECK` / `CARBON_FATAL` path, and every
checked indexed access) are modelled with `Option`, where `none` stands for
a fatal abort.
-/

namespace Lowering

/-! ## Built-in kinds

Modelled from the spec: the list of built-in kinds lives in
`toolchain/semantics/semantics_builtin_kind.def`, which is not part of the
core source.  The spec fixes a reserved low range of semantic ids
`[0, ValidCount)` for built-ins and names three of them: the empty-tuple
type, the generic floating-point type and the generic integer type.  We
give them distinct indices inside the reserved range; `name` is the
built-in's canonical name as returned by `SemanticsBuiltinKind::name()`. -/

namespace SemanticsBuiltinKind

def EmptyTupleType : Nat := 0
def FloatingPointType : Nat := 1
def IntegerType : Nat := 2
def ValidCount : Nat := 3

/-- `SemanticsBuiltinKind::FromInt(i).name()`: the canonical name of the
built-in with index `i`. -/
def name : Nat → String
  | 0 => "EmptyTupleType"
  | 1 => "FloatingPointType"
  | 2 => "IntegerType"
  | _ => "InvalidBuiltin"

end SemanticsBuiltinKind

/-! ## Target IR (LLVM) model -/

/-- A lowered LLVM type.  `builder_.getInt32Ty()` is `IntegerTy 32`,
`builder_.getDoubleTy()` is `DoubleTy`, and `llvm::StructType::create`
with a name and element list is `StructTy`. -/
inductive LLVMType where
  | IntegerTy (bits : Nat)
  | DoubleTy
  | StructTy (tyName : String) (elements : List LLVMType)

/-- A lowered LLVM value, tagged with its dynamic kind so that
`llvm::isa<...>` tests can be modelled.  `Argument f i` is
`llvm_function->getArg(i)` of the function with handle `f`; `AllocaInst`
and `GetElementPtrInst` are address-producing instructions recorded by
node handlers; `LoadInst ty n` is the fresh result of the `n`-th emitted
instruction when it is a load of type `ty`. -/
inductive LLVMValue where
  | Argument (func : Nat) (idx : Nat)
  | AllocaInst (id : Nat)
  | GetElementPtrInst (id : Nat)
  | LoadInst (ty : LLVMType) (id : Nat)
  | OtherValue (id : Nat)

/-- `llvm::isa<llvm::AllocaInst, llvm::GetElementPtrInst>(value)`. -/
def LLVMValue.isAllocaOrGEP : LLVMValue → Bool
  | .AllocaInst _ => true
  | .GetElementPtrInst _ => true
  | _ => false

/-- An emitted LLVM instruction (only loads are emitted by the core
itself; handler-emitted instructions are `OtherInstr`). -/
inductive LLVMInstr where
  | Load (ty : LLVMType) (addr : LLVMValue) (id : Nat)
  | OtherInstr (id : Nat)

/-- A basic block: its name and the handle of the function it was created
in (`llvm::BasicBlock::Create(context, name, function)`). -/
structure BasicBlock where
  blockName : String
  parent : Nat
deriving DecidableEq, Repr

/-- The state of the `llvm::IRBuilder`: the instructions emitted so far
(in emission order), the basic blocks created so far, a counter providing
fresh instruction ids, and the current insertion point. -/
structure Builder where
  instructions : List LLVMInstr
  blocks : List BasicBlock
  nextId : Nat
  insertPoint : Option Nat

/-- `builder().CreateLoad(load_type, value)`: emits a load instruction at
the current insertion point and returns its fresh result value. -/
def Builder.CreateLoad (b : Builder) (ty : LLVMType) (addr : LLVMValue) :
    LLVMValue × Builder :=
  (.LoadInst ty b.nextId,
   { b with
       instructions := b.instructions ++ [.Load ty addr b.nextId]
       nextId := b.nextId + 1 })

/-- `builder_.SetInsertPoint(llvm::BasicBlock::Create(ctx, name, fn))`:
creates a basic block in function `fn` and makes it the insertion point. -/
def Builder.SetInsertPointNewBlock (b : Builder) (blockName : String)
    (fn : Nat) : Builder :=
  { b with
      blocks := b.blocks ++ [⟨blockName, fn⟩]
      insertPoint := some b.blocks.length }

/-- A declared LLVM function: its signature, linkage-visible name and
parameter names, as materialized by `llvm::Function::Create` followed by
`setName` on each argument. -/
structure LLVMFunction where
  funcName : String
  paramTypes : List LLVMType
  returnType : LLVMType
  paramNames : List String

/-- The LLVM module under construction.  A function handle is an index
into `functions` (the model of an `llvm::Function*`). -/
structure LLVMModule where
  moduleName : String
  functions : List LLVMFunction

/-! ## Semantic IR model -/

/-- The kind tag of a semantic node.  The core only decodes `BindName`
(parameters) and `StructType` nodes; every other kind is carried
opaquely by `OtherKind` (the macro-generated dispatch in
`BuildFunctionDefinition` is total over all kinds). -/
inductive SemanticsNodeKind where
  | BindName
  | StructType
  | OtherKind (tag : Nat)
deriving DecidableEq, Repr

/-- A semantic node: a kind tag, two kind-specific operands and the id of
its type.  `GetAsBindName` decodes `(name_id, storage_id)`;
`GetAsStructType` decodes the member-reference block id. -/
structure SemanticsNode where
  kind : SemanticsNodeKind
  type_id : Nat
  arg0 : Nat
  arg1 : Nat
deriving DecidableEq, Repr

/-- `node.GetAsBindName()`: the interned name id and the storage node id. -/
def SemanticsNode.GetAsBindName (n : SemanticsNode) : Nat × Nat :=
  (n.arg0, n.arg1)

/-- `node.GetAsStructType()`: the id of the member-reference node block. -/
def SemanticsNode.GetAsStructType (n : SemanticsNode) : Nat :=
  n.arg0

/-- A semantic function descriptor.  `return_type_id` and `body_id` model
`SemanticsNodeId` / `SemanticsNodeBlockId` fields whose `is_valid()` may
be false: `none` is the invalid id. -/
structure SemanticsFunction where
  name_id : Nat
  param_refs_id : Nat
  return_type_id : Option Nat
  body_id : Option Nat
deriving DecidableEq, Repr

/-- The read-only semantic IR consumed by lowering. -/
structure SemanticsIR where
  nodes : List SemanticsNode
  node_blocks : List (List Nat)
  functions : List SemanticsFunction
  strings : List String
  types : List Nat
  empty_tuple_type_id : Nat
  has_errors : Bool
deriving DecidableEq, Repr

/-- `semantics_ir().GetNode(node_id)` (checked indexed access). -/
def SemanticsIR.GetNode (ir : SemanticsIR) (node_id : Nat) :
    Option SemanticsNode :=
  ir.nodes.get? node_id

/-- `semantics_ir().GetNodeBlock(block_id)` (checked indexed access). -/
def SemanticsIR.GetNodeBlock (ir : SemanticsIR) (block_id : Nat) :
    Option (List Nat) :=
  ir.node_blocks.get? block_id

/-- `semantics_ir().GetFunction(function_id)` (checked indexed access). -/
def SemanticsIR.GetFunction (ir : SemanticsIR) (function_id : Nat) :
    Option SemanticsFunction :=
  ir.functions.get? function_id

/-- `semantics_ir().GetString(string_id)` (checked indexed access). -/
def SemanticsIR.GetString (ir : SemanticsIR) (string_id : Nat) :
    Option String :=
  ir.strings.get? string_id

/-! ## The lowering context -/

/-- The mutable state of `LoweringContext`:
the module under construction (`llvm_module_`, `none` once moved out by
`Run`), the IR builder, the semantic IR being lowered, the Type Cache
(`types_`), the Function Cache (`functions_`, holding function handles),
and the per-function Local Value Environment (`locals_`, an association
list with unique keys). -/
structure LoweringContext where
  llvm_module_ : Option LLVMModule
  builder_ : Builder
  semantics_ir_ : SemanticsIR
  types_ : List LLVMType
  functions_ : List Nat
  locals_ : List (Nat × LLVMValue)

/-- The `LoweringContext` constructor: fatal if the semantic IR has
errors (`CARBON_CHECK(!semantics_ir.has_errors())`), otherwise a fresh
context owning an empty module. -/
def LoweringContext.construct (module_name : String) (ir : SemanticsIR) :
    Option LoweringContext :=
  if ir.has_errors then none
  else some
    { llvm_module_ := some ⟨module_name, []⟩
      builder_ := ⟨[], [], 0, none⟩
      semantics_ir_ := ir
      types_ := []
      functions_ := []
      locals_ := [] }

/-- `GetType(type_id)`.  Modelled from the spec: the accessor is declared
in `lowering_context.h`, which is not part of the core source; the spec
describes the Type Cache as a dense array indexed by semantic type id,
populated before use (an unpopulated entry is fatal). -/
def LoweringContext.GetType (ctx : LoweringContext) (type_id : Nat) :
    Option LLVMType :=
  ctx.types_.get? type_id

/-- `GetFunction(function_id)`.  Modelled from the spec: the accessor is
declared in `lowering_context.h`, which is not part of the core source;
the spec describes the Function Cache as a dense array indexed by
semantic function id holding target function handles. -/
def LoweringContext.GetFunction (ctx : LoweringContext) (function_id : Nat) :
    Option Nat :=
  ctx.functions_.get? function_id

/-- `GetLocal(node_id)`.  Modelled from the spec: the accessor is declared
in `lowering_context.h`, which is not part of the core source; it looks up
the target value recorded for `node_id` in the Local Value Environment
(a missing entry is fatal). -/
def LoweringContext.GetLocal (ctx : LoweringContext) (node_id : Nat) :
    Option LLVMValue :=
  (ctx.locals_.find? (fun p => p.1 = node_id)).map (·.2)

/-- `llvm::DenseMap::insert({key, value})`: no-op returning `false` when
the key is already present, otherwise adds the pair and returns `true`. -/
def localsInsert (locals : List (Nat × LLVMValue)) (key : Nat)
    (value : LLVMValue) : List (Nat × LLVMValue) × Bool :=
  if locals.any (fun p => p.1 = key) then (locals, false)
  else (locals ++ [(key, value)], true)

/-- The `for`-loop shape shared by the source's element-wise lowering
loops (`args[i] = ...`, `subtypes.push_back(...)`): lower each element in
order, failing as soon as one element fails. -/
def mapOption {α β : Type} (f : α → Option β) : List α → Option (List β)
  | [] => some []
  | x :: xs => do
      let y ← f x
      let ys ← mapOption f xs
      some (y :: ys)

/-! ## `BuildType` (`lowering_context.cpp:127-167`) -/

/-- The member-lowering step of `BuildType`'s `StructType` case: read the
member node's type id, require it to be in the built-in range
(`CARBON_CHECK(type_id.index < SemanticsBuiltinKind::ValidCount)`, fatal
otherwise), and look the type up in the Type Cache. -/
def LoweringContext.structMemberType (ctx : LoweringContext)
    (ref_id : Nat) : Option LLVMType := do
  let refNode ← ctx.semantics_ir_.GetNode ref_id
  -- The restriction to builtins prevents recursion while still letting
  -- them cache.
  if refNode.type_id < SemanticsBuiltinKind.ValidCount then
    ctx.GetType refNode.type_id
  else none

/-- `LoweringContext::BuildType(node_id)`: built-in type ids are handled
by a switch on the raw id; any other id must dereference to a
`StructType` node whose member types are all in the built-in range,
else fatal (`CARBON_FATAL() << "Cannot use node as type"`). -/
def LoweringContext.BuildType (ctx : LoweringContext) (node_id : Nat) :
    Option LLVMType :=
  if node_id = SemanticsBuiltinKind.EmptyTupleType then
    -- Represent empty types as empty structs.
    some (.StructTy (SemanticsBuiltinKind.name node_id) [])
  else if node_id = SemanticsBuiltinKind.FloatingPointType then
    some .DoubleTy
  else if node_id = SemanticsBuiltinKind.IntegerType then
    some (.IntegerTy 32)
  else do
    let node ← ctx.semantics_ir_.GetNode node_id
    match node.kind with
    | .StructType => do
        let refs ← ctx.semantics_ir_.GetNodeBlock node.GetAsStructType
        let subtypes ← mapOption ctx.structMemberType refs
        some (.StructTy "StructLiteralType" subtypes)
    | _ => none

/-! ## `GetLocalLoaded` (`lowering_context.cpp:169-178`) -/

/-- `LoweringContext::GetLocalLoaded(node_id)`: look up the recorded
target value; if it is an `AllocaInst` or `GetElementPtrInst`, emit a
load of the node's type and return the loaded value, otherwise return
the recorded value unchanged. -/
def LoweringContext.GetLocalLoaded (ctx : LoweringContext) (node_id : Nat) :
    Option (LLVMValue × LoweringContext) := do
  let value ← ctx.GetLocal node_id
  if value.isAllocaOrGEP then do
    let node ← ctx.semantics_ir_.GetNode node_id
    let load_type ← ctx.GetType node.type_id
    let (loaded, b) := ctx.builder_.CreateLoad load_type value
    some (loaded, { ctx with builder_ := b })
  else
    -- No load is needed.
    some (value, ctx)

/-! ## `BuildFunctionDeclaration` (`lowering_context.cpp:54-83`) -/

/-- `LoweringContext::BuildFunctionDeclaration(function_id)`: builds the
signature (parameter types via the Type Cache, return type via the Type
Cache — defaulting to the empty-tuple type when no return type is
declared), creates the function in the module with external linkage and
its interned name, sets the parameter names, and returns the new
function's handle. -/
def LoweringContext.BuildFunctionDeclaration (ctx : LoweringContext)
    (function_id : Nat) : Option (Nat × LoweringContext) := do
  let function ← ctx.semantics_ir_.GetFunction function_id
  let param_refs ← ctx.semantics_ir_.GetNodeBlock function.param_refs_id
  let args ← mapOption (fun ref => do
    let node ← ctx.semantics_ir_.GetNode ref
    ctx.GetType node.type_id) param_refs
  let return_type ← ctx.GetType
    (match function.return_type_id with
     | some id => id
     | none => ctx.semantics_ir_.empty_tuple_type_id)
  let fname ← ctx.semantics_ir_.GetString function.name_id
  -- Set parameter names.
  let param_names ← mapOption (fun ref => do
    let node ← ctx.semantics_ir_.GetNode ref
    ctx.semantics_ir_.GetString node.GetAsBindName.1) param_refs
  let mod ← ctx.llvm_module_
  let llvm_function := mod.functions.length
  let fn : LLVMFunction :=
    { funcName := fname
      paramTypes := args
      returnType := return_type
      paramNames := param_names }
  some (llvm_function,
    { ctx with
        llvm_module_ := some { mod with functions := mod.functions ++ [fn] } })

/-! ## `BuildFunctionDefinition` (`lowering_context.cpp:85-125`) -/

/-- Modelled from the spec: the per-node-kind handlers
(`LoweringHandle##Name`, one per entry of `semantics_node_kind.def`) live
in separate translation units that are not part of the core source.  The
spec says handlers receive the context, the node's id and its decoded
content, may read/extend the Local Value Environment, and emit
instructions at the (possibly redirected) insertion point; a handler may
itself fail fatally.  A `Handlers` value gives the dispatched routine for
every node kind, returning the updated environment and builder state. -/
def Handlers : Type :=
  SemanticsNodeKind → Nat → SemanticsNode → LoweringContext →
    Option (List (Nat × LLVMValue) × Builder)

/-- One iteration of the dispatch loop in `BuildFunctionDefinition`:
fetch the node and `switch` on its kind to the handler. -/
def applyHandler (h : Handlers) (ctx : LoweringContext) (node_id : Nat) :
    Option LoweringContext := do
  let node ← ctx.semantics_ir_.GetNode node_id
  let (locals, b) ← h node.kind node_id node ctx
  some { ctx with locals_ := locals, builder_ := b }

/-- The body-lowering loop of `BuildFunctionDefinition`: dispatch each
node of the body block, in recorded order. -/
def lowerBody (h : Handlers) : LoweringContext → List Nat →
    Option LoweringContext
  | ctx, [] => some ctx
  | ctx, node_id :: rest => do
      let ctx' ← applyHandler h ctx node_id
      lowerBody h ctx' rest

/-- The parameter-binding loop of `BuildFunctionDefinition`: for the i-th
parameter reference, read its bound storage id and insert
`storage ↦ getArg(i)` into the environment;
`CARBON_CHECK(locals_.insert(...).second)` makes a duplicate key fatal. -/
def bindParams (ir : SemanticsIR) (llvm_function : Nat) :
    List Nat → Nat → List (Nat × LLVMValue) →
    Option (List (Nat × LLVMValue))
  | [], _, locals => some locals
  | ref :: rest, i, locals => do
      let node ← ir.GetNode ref
      let param_storage := node.GetAsBindName.2
      let (locals', ok) :=
        localsInsert locals param_storage (.Argument llvm_function i)
      if ok then bindParams ir llvm_function rest (i + 1) locals'
      else none

/-- `LoweringContext::BuildFunctionDefinition(function_id)`: return
immediately when the function has no body; otherwise look up the declared
function, open an `entry` block, require an empty environment
(`CARBON_CHECK(locals_.empty())`), bind the parameters, dispatch each
body node to its handler in block order, and clear the environment. -/
def LoweringContext.BuildFunctionDefinition (h : Handlers)
    (ctx : LoweringContext) (function_id : Nat) : Option LoweringContext := do
  let function ← ctx.semantics_ir_.GetFunction function_id
  match function.body_id with
  | none =>
      -- Function is probably defined in another file; not an error.
      some ctx
  | some body_id => do
      let llvm_function ← ctx.GetFunction function_id
      -- Create a new basic block to start insertion into.
      let ctx :=
        { ctx with
            builder_ :=
              ctx.builder_.SetInsertPointNewBlock "entry" llvm_function }
      if ctx.locals_.isEmpty then do
        -- Add parameters to locals.
        let param_refs ← ctx.semantics_ir_.GetNodeBlock function.param_refs_id
        let locals ←
          bindParams ctx.semantics_ir_ llvm_function param_refs 0 ctx.locals_
        let ctx := { ctx with locals_ := locals }
        let body ← ctx.semantics_ir_.GetNodeBlock body_id
        let ctx ← lowerBody h ctx body
        -- Clear locals.
        some { ctx with locals_ := [] }
      else none

/-! ## `Run` (`lowering_context.cpp:26-52`) -/

/-- The type-lowering phase of `Run`:
`for i: types_[i] = BuildType(types[i])`, each call seeing the entries
filled so far (the vector is `resize_for_overwrite`d, so a read past the
filled prefix is invalid). -/
def lowerTypes : LoweringContext → List Nat → Option LoweringContext
  | ctx, [] => some ctx
  | ctx, t :: rest => do
      let ty ← ctx.BuildType t
      lowerTypes { ctx with types_ := ctx.types_ ++ [ty] } rest

/-- The declaration-lowering phase of `Run`:
`for i: functions_[i] = BuildFunctionDeclaration(SemanticsFunctionId(i))`. -/
def lowerDecls : LoweringContext → List Nat → Option LoweringContext
  | ctx, [] => some ctx
  | ctx, i :: rest => do
      let (handle, ctx') ← ctx.BuildFunctionDeclaration i
      lowerDecls { ctx' with functions_ := ctx'.functions_ ++ [handle] } rest

/-- The definition-lowering phase of `Run`:
`for i: BuildFunctionDefinition(SemanticsFunctionId(i))`. -/
def lowerDefs (h : Handlers) : LoweringContext → List Nat →
    Option LoweringContext
  | ctx, [] => some ctx
  | ctx, i :: rest => do
      let ctx' ← ctx.BuildFunctionDefinition h i
      lowerDefs h ctx' rest

/-- `LoweringContext::Run()`: fatal when the module was already moved out
(`CARBON_CHECK(llvm_module_) << "Run can only be called once."`); then
lower all types, all function declarations and all function definitions,
in id order, and move the completed module out of the context. -/
def LoweringContext.Run (h : Handlers) (ctx : LoweringContext) :
    Option (LLVMModule × LoweringContext) := do
  let _ ← ctx.llvm_module_
  -- Lower types.
  let ctx ← lowerTypes { ctx with types_ := [] } ctx.semantics_ir_.types
  -- Lower function declarations.
  let ctx ← lowerDecls { ctx with functions_ := [] }
    (List.range ctx.semantics_ir_.functions.length)
  -- Lower function definitions.
  let ctx ← lowerDefs h ctx (List.range ctx.semantics_ir_.functions.length)
  -- return std::move(llvm_module_);
  let m ← ctx.llvm_module_
  some (m, { ctx with llvm_module_ := none })

/-! ## Specification helpers

Definitions used only to state properties of the embedding. -/

/-- The storage node id a parameter reference binds
(`GetNode(ref).GetAsBindName().second`). -/
def storageOf (ir : SemanticsIR) (ref : Nat) : Option Nat :=
  (ir.GetNode ref).map (fun n => n.GetAsBindName.2)

/-- The environment entries parameter binding is specified to produce:
the k-th storage id (starting from argument index `i`) mapped to the
corresponding argument of the function with handle `f`, in parameter
order. -/
def argPairs (f : Nat) : Nat → List Nat → List (Nat × LLVMValue)
  | _, [] => []
  | i, s :: rest => (s, .Argument f i) :: argPairs f (i + 1) rest

/-! ## Concrete fixtures

A small closed semantic IR exercising every code path, used to witness
the theorems below on explicit inputs.  Nodes 0-2 stand for the built-in
type nodes; `add` is a two-parameter function with a body, `ext` a
declaration with neither return type nor body. -/

def exampleIR : SemanticsIR where
  nodes :=
    [ ⟨.OtherKind 0, 0, 0, 0⟩,  -- 0: built-in EmptyTupleType
      ⟨.OtherKind 0, 0, 0, 0⟩,  -- 1: built-in FloatingPointType
      ⟨.OtherKind 0, 0, 0, 0⟩,  -- 2: built-in IntegerType
      ⟨.BindName, 2, 0, 8⟩,     -- 3: parameter `a`, storage node 8
      ⟨.BindName, 2, 1, 9⟩,     -- 4: parameter `b`, storage node 9
      ⟨.StructType, 0, 1, 0⟩,   -- 5: a struct type over node block 1
      ⟨.OtherKind 2, 2, 0, 0⟩,  -- 6: a body node
      ⟨.BindName, 2, 0, 8⟩,     -- 7: parameter sharing storage node 8
      ⟨.OtherKind 1, 2, 0, 0⟩,  -- 8: storage for `a`
      ⟨.OtherKind 1, 2, 0, 0⟩ ] -- 9: storage for `b`
  node_blocks :=
    [ [3, 4],   -- 0: parameters of `add`
      [3, 4],   -- 1: struct members, both of built-in integer type
      [6],      -- 2: body block of `add`
      [3, 7],   -- 3: parameters binding the same storage node twice
      [] ]      -- 4: empty parameter list
  functions :=
    [ ⟨2, 0, some 2, some 2⟩,   -- 0: add(a, b) -> i32 with a body
      ⟨3, 4, none, none⟩ ]      -- 1: ext(), no return type, no body
  strings := ["a", "b", "add", "ext", "dup"]
  types := [0, 1, 2]
  empty_tuple_type_id := 0
  has_errors := false

/-- Node handlers that translate every node to no instructions (the
smallest well-formed `Handlers` value). -/
def handlersId : Handlers :=
  fun _ _ _ ctx => some (ctx.locals_, ctx.builder_)

/-- A freshly constructed context over `exampleIR`
(`LoweringContext.construct "test" exampleIR` succeeds with this state). -/
def exampleCtx : LoweringContext where
  llvm_module_ := some ⟨"test", []⟩
  builder_ := ⟨[], [], 0, none⟩
  semantics_ir_ := exampleIR
  types_ := []
  functions_ := []
  locals_ := []

/-- `exampleCtx` with its Type Cache already populated (the state after
the type-lowering phase). -/
def declCtx : LoweringContext :=
  { exampleCtx with
      types_ :=
        [.StructTy "EmptyTupleType" [], .DoubleTy, .IntegerTy 32] }

/-- A semantic IR whose single function binds two parameters to the same
storage node (node block 3 is `[3, 7]`, and nodes 3 and 7 both bind
storage node 8). -/
def dupIR : SemanticsIR :=
  { exampleIR with functions := [⟨4, 3, some 2, some 2⟩] }

/-- A context over `dupIR` with Type and Function Caches populated, as
definition lowering would find them. -/
def dupCtx : LoweringContext where
  llvm_module_ := some ⟨"test", [⟨"dup", [.IntegerTy 32, .IntegerTy 32], .IntegerTy 32, ["a", "a"]⟩]⟩
  builder_ := ⟨[], [], 0, none⟩
  semantics_ir_ := dupIR
  types_ := [.StructTy "EmptyTupleType" [], .DoubleTy, .IntegerTy 32]
  functions_ := [0]
  locals_ := []

/-- `dupCtx` with a stale entry left in the Local Value Environment. -/
def dupCtxBad : LoweringContext :=
  { dupCtx with locals_ := [(0, .OtherValue 0)] }

/-- A context whose Local Value Environment records an address-kind value
(a stack allocation) for node 6 and a materialized value for node 8. -/
def loadCtx : LoweringContext :=
  { declCtx with
      locals_ := [(6, .AllocaInst 0), (8, .OtherValue 1)] }

/-- The module and spent context produced by running the pipeline on
`exampleCtx` (the run succeeds, witnessed by evaluation). -/
def exampleRunPair : LLVMModule × LoweringContext :=
  (exampleCtx.Run handlersId).get (by rfl)

/-- The handle and updated context produced by declaring `dupIR`'s
function on `dupCtx` (the declaration succeeds despite the duplicate
storage binding). -/
def dupDeclPair : Nat × LoweringContext :=
  (dupCtx.BuildFunctionDeclaration 0).get (by rfl)

/-- The handle and updated context produced by declaring `ext` (no
declared return type) on `declCtx`. -/
def extDeclPair : Nat × LoweringContext :=
  (declCtx.BuildFunctionDeclaration 1).get (by rfl)

/-! ## Lemmas about `mapOption` -/

theorem mapOption_cons {α β : Type} (f : α → Option β) (a : α)
    (as : List α) {ys : List β} :
    mapOption f (a :: as) = some ys ↔
      ∃ y zs, f a = some y ∧ mapOption f as = some zs ∧ ys = y :: zs := by
  simp only [mapOption, bind, Option.bind_eq_some]
  constructor
  · rintro ⟨y, hy, zs, hzs, hcons⟩
    exact ⟨y, zs, hy, hzs, (Option.some.injEq _ _ ▸ hcons).symm⟩
  · rintro ⟨y, zs, hy, hzs, rfl⟩
    exact ⟨y, hy, zs, hzs, rfl⟩

theorem mapOption_length {α β : Type} (f : α → Option β) :
    ∀ {l : List α} {ys : List β}, mapOption f l = some ys →
      ys.length = l.length := by
  intro l
  induction l with
  | nil => intro ys h; cases h; rfl
  | cons a as ih =>
      intro ys h
      obtain ⟨y, zs, _, hzs, rfl⟩ := (mapOption_cons f a as).mp h
      simp [ih hzs]

theorem mapOption_get? {α β : Type} (f : α → Option β) :
    ∀ {l : List α} {ys : List β}, mapOption f l = some ys →
      ∀ i x, l.get? i = some x → ∃ y, ys.get? i = some y ∧ f x = some y := by
  intro l
  induction l with
  | nil => intro ys _ i x hx; simp [List.get?] at hx
  | cons a as ih =>
      intro ys h i x hx
      obtain ⟨y, zs, hy, hzs, rfl⟩ := (mapOption_cons f a as).mp h
      cases i with
      | zero => cases hx; exact ⟨y, rfl, hy⟩
      | succ j => exact ih hzs j x hx

theorem mapOption_none_of_mem {α β : Type} (f : α → Option β) :
    ∀ {l : List α} {x : α}, x ∈ l → f x = none → mapOption f l = none := by
  intro l
  induction l with
  | nil => intro x hx; cases hx
  | cons a as ih =>
      intro x hx hf
      rcases List.mem_cons.mp hx with rfl | hmem
      · simp [mapOption, hf]
      · simp only [mapOption, bind]
        cases hfa : f a
        · rfl
        · simp [ih hmem hf]

theorem mapOption_take {α β : Type} (f : α → Option β) :
    ∀ {l : List α} {ys : List β}, mapOption f l = some ys →
      ∀ k, mapOption f (l.take k) = some (ys.take k) := by
  intro l
  induction l with
  | nil => intro ys h k; cases h; simp [mapOption]
  | cons a as ih =>
      intro ys h k
      obtain ⟨y, zs, hy, hzs, rfl⟩ := (mapOption_cons f a as).mp h
      cases k with
      | zero => simp [mapOption]
      | succ j =>
          simp only [List.take_succ_cons]
          exact (mapOption_cons f a (as.take j)).mpr ⟨y, zs.take j, hy, ih hzs j, rfl⟩

/-! ## Lemmas about parameter binding -/

theorem argPairs_append (f : Nat) (i : Nat) (s : Nat) (ss : List Nat) :
    argPairs f i (s :: ss) = (s, .Argument f i) :: argPairs f (i + 1) ss := rfl

/-- Parameter binding succeeds when the storage ids are distinct and
disjoint from the keys already present, and then appends exactly the
storage-to-argument pairs in parameter order. -/
theorem bindParams_some (ir : SemanticsIR) (f : Nat) :
    ∀ (refs storages : List Nat) (i : Nat) (locals : List (Nat × LLVMValue)),
      mapOption (storageOf ir) refs = some storages →
      storages.Nodup →
      (∀ s ∈ storages, ∀ p ∈ locals, p.1 ≠ s) →
      bindParams ir f refs i locals = some (locals ++ argPairs f i storages) := by
  intro refs
  induction refs with
  | nil =>
      intro storages i locals hmap _ _
      cases hmap
      simp [bindParams, argPairs]
  | cons ref rest ih =>
      intro storages i locals hmap hnodup hdisj
      obtain ⟨s, ss, hs, hss, rfl⟩ := (mapOption_cons (storageOf ir) ref rest).mp hmap
      obtain ⟨node, hnode, hstor⟩ :
          ∃ node, ir.GetNode ref = some node ∧ node.GetAsBindName.2 = s := by
        cases hnref : ir.GetNode ref with
        | none => rw [storageOf, hnref] at hs; cases hs
        | some n =>
            rw [storageOf, hnref] at hs
            exact ⟨n, rfl, Option.some.inj hs⟩
      have hnotin : locals.any (fun p => p.1 = s) = false := by
        rw [List.any_eq_false]
        intro p hp
        simpa using hdisj s (List.mem_cons_self _ _) p hp
      simp only [bindParams, hnode, bind, Option.bind_eq_some]
      refine ⟨node, rfl, ?_⟩
      rw [hstor]
      simp only [localsInsert, hnotin, Bool.false_eq_true, if_false, if_true]
      have hrest := ih ss (i + 1) (locals ++ [(s, .Argument f i)]) hss
        (List.nodup_cons.mp hnodup).2 ?_
      · rw [hrest, argPairs_append, List.append_assoc]
        rfl
      · intro s' hs' p hp
        rcases List.mem_append.mp hp with hpl | hpr
        · exact hdisj s' (List.mem_cons_of_mem _ hs') p hpl
        · have : p = (s, LLVMValue.Argument f i) := by simpa using hpr
          subst this
          intro hcontra
          have hcs : s = s' := hcontra
          exact (List.nodup_cons.mp hnodup).1 (by rw [hcs]; exact hs')

/-- Parameter binding fails fatally when the storage ids are not
distinct (or collide with a key already present): the duplicate
insertion returns `false` and the `CARBON_CHECK` aborts. -/
theorem bindParams_none (ir : SemanticsIR) (f : Nat) :
    ∀ (refs storages : List Nat) (i : Nat) (locals : List (Nat × LLVMValue)),
      mapOption (storageOf ir) refs = some storages →
      ¬ (storages.Nodup ∧ ∀ s ∈ storages, ∀ p ∈ locals, p.1 ≠ s) →
      bindParams ir f refs i locals = none := by
  intro refs
  induction refs with
  | nil =>
      intro storages i locals hmap hbad
      cases hmap
      exact absurd ⟨List.nodup_nil, by intro s hs; cases hs⟩ hbad
  | cons ref rest ih =>
      intro storages i locals hmap hbad
      obtain ⟨s, ss, hs, hss, rfl⟩ := (mapOption_cons (storageOf ir) ref rest).mp hmap
      obtain ⟨node, hnode, hstor⟩ :
          ∃ node, ir.GetNode ref = some node ∧ node.GetAsBindName.2 = s := by
        cases hnref : ir.GetNode ref with
        | none => rw [storageOf, hnref] at hs; cases hs
        | some n =>
            rw [storageOf, hnref] at hs
            exact ⟨n, rfl, Option.some.inj hs⟩
      simp only [bindParams, hnode, bind, Option.some_bind]
      rw [hstor]
      by_cases hin : locals.any (fun p => p.1 = s) = true
      · simp [localsInsert, hin]
      · have hin' : locals.any (fun p => p.1 = s) = false :=
          Bool.eq_false_iff.mpr hin
        simp only [localsInsert, hin']
        simp only [Bool.false_eq_true, if_false, if_true]
        apply ih ss (i + 1) _ hss
        rintro ⟨hssnd, hssdisj⟩
        apply hbad
        have hsnotin : s ∉ ss := by
          intro hmem
          have := hssdisj s hmem (s, .Argument f i) (by simp)
          exact this rfl
        refine ⟨List.nodup_cons.mpr ⟨hsnotin, hssnd⟩, ?_⟩
        intro s' hs' p hp
        rcases List.mem_cons.mp hs' with rfl | hs'mem
        · intro hcontra
          have := List.any_eq_false.mp hin' p hp
          simp at this
          exact this hcontra
        · exact hssdisj s' hs'mem p (List.mem_append_left _ hp)

/-! ## Unfolding and frame lemmas -/

/-- Unfolding of a successful `BuildFunctionDeclaration`: every lookup
succeeded, the returned handle is the module's next function slot, and
the only state change is appending the new function to the module. -/
theorem BuildFunctionDeclaration_some_spec {ctx : LoweringContext}
    {function_id hdl : Nat} {ctx' : LoweringContext}
    (h : ctx.BuildFunctionDeclaration function_id = some (hdl, ctx')) :
    ∃ function param_refs args return_type fname param_names mod,
      ctx.semantics_ir_.GetFunction function_id = some function ∧
      ctx.semantics_ir_.GetNodeBlock function.param_refs_id = some param_refs ∧
      mapOption (fun ref => do
        let node ← ctx.semantics_ir_.GetNode ref
        ctx.GetType node.type_id) param_refs = some args ∧
      ctx.GetType
        (match function.return_type_id with
         | some id => id
         | none => ctx.semantics_ir_.empty_tuple_type_id) = some return_type ∧
      ctx.semantics_ir_.GetString function.name_id = some fname ∧
      mapOption (fun ref => do
        let node ← ctx.semantics_ir_.GetNode ref
        ctx.semantics_ir_.GetString node.GetAsBindName.1) param_refs =
          some param_names ∧
      ctx.llvm_module_ = some mod ∧
      hdl = mod.functions.length ∧
      ctx' = { ctx with llvm_module_ := some { mod with
        functions := mod.functions ++
          [⟨fname, args, return_type, param_names⟩] } } := by
  simp only [LoweringContext.BuildFunctionDeclaration, bind,
    Option.bind_eq_some] at h
  obtain ⟨f, hf, prefs, hprefs, args, hargs, rt, hrt, fname, hname,
    pnames, hpnames, mod, hmod, h⟩ := h
  simp only [Option.some.injEq, Prod.mk.injEq] at h
  exact ⟨f, prefs, args, rt, fname, pnames, mod, hf, hprefs, hargs, hrt,
    hname, hpnames, hmod, h.1.symm, h.2.symm⟩

/-- `BuildFunctionDeclaration` touches nothing but the module: the
caches, environment, builder and semantic IR are left as they were. -/
theorem BuildFunctionDeclaration_frame {ctx : LoweringContext}
    {function_id hdl : Nat} {ctx' : LoweringContext}
    (h : ctx.BuildFunctionDeclaration function_id = some (hdl, ctx')) :
    ctx'.semantics_ir_ = ctx.semantics_ir_ ∧ ctx'.types_ = ctx.types_ ∧
    ctx'.functions_ = ctx.functions_ ∧ ctx'.locals_ = ctx.locals_ ∧
    ctx'.builder_ = ctx.builder_ := by
  obtain ⟨f, prefs, args, rt, fname, pnames, mod, -, -, -, -, -, -, -, -, rfl⟩ :=
    BuildFunctionDeclaration_some_spec h
  exact ⟨rfl, rfl, rfl, rfl, rfl⟩

/-- `applyHandler` changes only the environment and the builder. -/
theorem applyHandler_frame {h : Handlers} {ctx : LoweringContext}
    {node_id : Nat} {ctx' : LoweringContext}
    (ha : applyHandler h ctx node_id = some ctx') :
    ctx'.semantics_ir_ = ctx.semantics_ir_ ∧ ctx'.types_ = ctx.types_ ∧
    ctx'.functions_ = ctx.functions_ ∧
    ctx'.llvm_module_ = ctx.llvm_module_ := by
  simp only [applyHandler, bind, Option.bind_eq_some] at ha
  obtain ⟨node, -, ⟨locals, b⟩, -, ha⟩ := ha
  cases ha
  exact ⟨rfl, rfl, rfl, rfl⟩

/-- The body-dispatch loop changes only the environment and the builder. -/
theorem lowerBody_frame {h : Handlers} :
    ∀ {body : List Nat} {ctx ctx' : LoweringContext},
      lowerBody h ctx body = some ctx' →
      ctx'.semantics_ir_ = ctx.semantics_ir_ ∧ ctx'.types_ = ctx.types_ ∧
      ctx'.functions_ = ctx.functions_ ∧
      ctx'.llvm_module_ = ctx.llvm_module_ := by
  intro body
  induction body with
  | nil => intro ctx ctx' hb; cases hb; exact ⟨rfl, rfl, rfl, rfl⟩
  | cons node_id rest ih =>
      intro ctx ctx' hb
      simp only [lowerBody, bind, Option.bind_eq_some] at hb
      obtain ⟨ctxMid, hmid, hrest⟩ := hb
      obtain ⟨e1, e2, e3, e4⟩ := applyHandler_frame hmid
      obtain ⟨f1, f2, f3, f4⟩ := ih hrest
      exact ⟨f1.trans e1, f2.trans e2, f3.trans e3, f4.trans e4⟩

/-- `BuildFunctionDefinition` never modifies the caches, the module or
the semantic IR, whatever the handlers do to environment and builder. -/
theorem BuildFunctionDefinition_frame {h : Handlers} {ctx : LoweringContext}
    {function_id : Nat} {ctx' : LoweringContext}
    (hd : ctx.BuildFunctionDefinition h function_id = some ctx') :
    ctx'.semantics_ir_ = ctx.semantics_ir_ ∧ ctx'.types_ = ctx.types_ ∧
    ctx'.functions_ = ctx.functions_ ∧
    ctx'.llvm_module_ = ctx.llvm_module_ := by
  simp only [LoweringContext.BuildFunctionDefinition, bind,
    Option.bind_eq_some] at hd
  obtain ⟨f, hf, hd⟩ := hd
  cases hb : f.body_id with
  | none =>
      rw [hb] at hd
      cases hd
      exact ⟨rfl, rfl, rfl, rfl⟩
  | some body_id =>
      rw [hb] at hd
      simp only [bind, Option.bind_eq_some] at hd
      obtain ⟨llvm_function, hfn, hd⟩ := hd
      by_cases hemp : ctx.locals_.isEmpty = true
      · rw [if_pos hemp] at hd
        simp only [bind, Option.bind_eq_some] at hd
        obtain ⟨prefs, hprefs, locals, hlocals, body, hbody, ctxB, hctxB, hd⟩ := hd
        cases hd
        obtain ⟨e1, e2, e3, e4⟩ := lowerBody_frame hctxB
        exact ⟨e1, e2, e3, e4⟩
      · rw [if_neg hemp] at hd
        cases hd

/-- The type-lowering phase only appends to the Type Cache. -/
theorem lowerTypes_frame :
    ∀ {ts : List Nat} {ctx ctx' : LoweringContext},
      lowerTypes ctx ts = some ctx' →
      ctx'.semantics_ir_ = ctx.semantics_ir_ ∧
      ctx'.functions_ = ctx.functions_ ∧ ctx'.locals_ = ctx.locals_ ∧
      ctx'.llvm_module_ = ctx.llvm_module_ ∧
      ctx'.builder_ = ctx.builder_ := by
  intro ts
  induction ts with
  | nil => intro ctx ctx' ht; cases ht; exact ⟨rfl, rfl, rfl, rfl, rfl⟩
  | cons t rest ih =>
      intro ctx ctx' ht
      simp only [lowerTypes, bind, Option.bind_eq_some] at ht
      obtain ⟨ty, -, hrest⟩ := ht
      obtain ⟨f1, f2, f3, f4, f5⟩ := ih hrest
      exact ⟨f1, f2, f3, f4, f5⟩

/-- The declaration-lowering phase only appends to the Function Cache
and to the module. -/
theorem lowerDecls_frame :
    ∀ {ids : List Nat} {ctx ctx' : LoweringContext},
      lowerDecls ctx ids = some ctx' →
      ctx'.semantics_ir_ = ctx.semantics_ir_ ∧ ctx'.types_ = ctx.types_ ∧
      ctx'.locals_ = ctx.locals_ ∧ ctx'.builder_ = ctx.builder_ := by
  intro ids
  induction ids with
  | nil => intro ctx ctx' hd; cases hd; exact ⟨rfl, rfl, rfl, rfl⟩
  | cons i rest ih =>
      intro ctx ctx' hd
      simp only [lowerDecls, bind, Option.bind_eq_some] at hd
      obtain ⟨⟨hdl, ctxP⟩, hdecl, hrest⟩ := hd
      obtain ⟨e1, e2, -, e4, e5⟩ := BuildFunctionDeclaration_frame hdecl
      obtain ⟨f1, f2, f3, f4⟩ := ih hrest
      exact ⟨f1.trans e1, f2.trans e2, f3.trans e4, f4.trans e5⟩

/-- The definition-lowering phase never modifies the caches, the module
or the semantic IR. -/
theorem lowerDefs_frame {h : Handlers} :
    ∀ {ids : List Nat} {ctx ctx' : LoweringContext},
      lowerDefs h ctx ids = some ctx' →
      ctx'.semantics_ir_ = ctx.semantics_ir_ ∧ ctx'.types_ = ctx.types_ ∧
      ctx'.functions_ = ctx.functions_ ∧
      ctx'.llvm_module_ = ctx.llvm_module_ := by
  intro ids
  induction ids with
  | nil => intro ctx ctx' hd; cases hd; exact ⟨rfl, rfl, rfl, rfl⟩
  | cons i rest ih =>
      intro ctx ctx' hd
      simp only [lowerDefs, bind, Option.bind_eq_some] at hd
      obtain ⟨ctxMid, hdef, hrest⟩ := hd
      obtain ⟨e1, e2, e3, e4⟩ := BuildFunctionDefinition_frame hdef
      obtain ⟨f1, f2, f3, f4⟩ := ih hrest
      exact ⟨f1.trans e1, f2.trans e2, f3.trans e3, f4.trans e4⟩

/-- The declaration phase processes a concatenation of id lists in
sequence. -/
theorem lowerDecls_append :
    ∀ (l₁ l₂ : List Nat) (ctx : LoweringContext),
      lowerDecls ctx (l₁ ++ l₂) =
        (lowerDecls ctx l₁).bind (fun c => lowerDecls c l₂) := by
  intro l₁
  induction l₁ with
  | nil => intro l₂ ctx; rfl
  | cons i rest ih =>
      intro l₂ ctx
      simp only [List.cons_append, lowerDecls, bind]
      cases ctx.BuildFunctionDeclaration i with
      | none => rfl
      | some p => exact ih l₂ _

/-- The definition phase processes a concatenation of id lists in
sequence. -/
theorem lowerDefs_append (h : Handlers) :
    ∀ (l₁ l₂ : List Nat) (ctx : LoweringContext),
      lowerDefs h ctx (l₁ ++ l₂) =
        (lowerDefs h ctx l₁).bind (fun c => lowerDefs h c l₂) := by
  intro l₁
  induction l₁ with
  | nil => intro l₂ ctx; rfl
  | cons i rest ih =>
      intro l₂ ctx
      simp only [List.cons_append, lowerDefs, bind]
      cases ctx.BuildFunctionDefinition h i with
      | none => rfl
      | some c => exact ih l₂ _

/-- The declaration phase appends one Function Cache entry per processed
id and never disturbs the entries already present. -/
theorem lowerDecls_functions :
    ∀ {ids : List Nat} {ctx ctx' : LoweringContext},
      lowerDecls ctx ids = some ctx' →
      ctx'.functions_.length = ctx.functions_.length + ids.length ∧
      ∀ j, j < ctx.functions_.length →
        ctx'.functions_.get? j = ctx.functions_.get? j := by
  intro ids
  induction ids with
  | nil =>
      intro ctx ctx' hd
      cases hd
      exact ⟨rfl, fun j _ => rfl⟩
  | cons i rest ih =>
      intro ctx ctx' hd
      simp only [lowerDecls, bind, Option.bind_eq_some] at hd
      obtain ⟨⟨hdl, ctxP⟩, hdecl, hrest⟩ := hd
      obtain ⟨-, -, hfns, -, -⟩ := BuildFunctionDeclaration_frame hdecl
      obtain ⟨hlen, hget⟩ := ih hrest
      constructor
      · rw [hlen]
        simp only [List.length_append, hfns]
        simp [Nat.add_assoc, Nat.add_comm 1 rest.length]
      · intro j hj
        rw [hget j (by simp [hfns]; omega)]
        rw [List.get?_append (by rw [hfns]; exact hj)]
        rw [hfns]

/-- Processing id `i` during the declaration phase stores the handle
produced by `BuildFunctionDeclaration(i)` at cache index `i`, and the
rest of the phase preserves that entry. -/
theorem lowerDecls_entry {n : Nat} {ctx ctxD : LoweringContext}
    (hstart : ctx.functions_ = [])
    (hd : lowerDecls ctx (List.range n) = some ctxD)
    {i : Nat} (hi : i < n) :
    ∃ ctxPre hdl ctxPost,
      lowerDecls ctx (List.range i) = some ctxPre ∧
      ctxPre.functions_.length = i ∧
      ctxPre.BuildFunctionDeclaration i = some (hdl, ctxPost) ∧
      ctxD.functions_.get? i = some hdl := by
  have hsplit : List.range n =
      (List.range i ++ [i]) ++
        (List.range (n - (i + 1))).map (fun x => (i + 1) + x) := by
    have h1 : n = (i + 1) + (n - (i + 1)) := by omega
    nth_rewrite 1 [h1]
    rw [List.range_add, List.range_succ]
  rw [hsplit, lowerDecls_append, lowerDecls_append] at hd
  cases hpre : lowerDecls ctx (List.range i) with
  | none => rw [hpre] at hd; cases hd
  | some ctxPre =>
      rw [hpre] at hd
      simp only [Option.some_bind] at hd
      cases hmid : lowerDecls ctxPre [i] with
      | none => rw [hmid] at hd; cases hd
      | some ctxMid =>
          rw [hmid] at hd
          simp only [Option.some_bind] at hd
          have hlenPre : ctxPre.functions_.length = i := by
            obtain ⟨hlen, -⟩ := lowerDecls_functions hpre
            rw [hlen, hstart]
            simp
          simp only [lowerDecls, bind, Option.bind_eq_some] at hmid
          obtain ⟨⟨hdl, ctxPost⟩, hdecl, hmid2⟩ := hmid
          cases hmid2
          obtain ⟨-, -, hfns, -, -⟩ := BuildFunctionDeclaration_frame hdecl
          refine ⟨ctxPre, hdl, ctxPost, rfl, hlenPre, hdecl, ?_⟩
          obtain ⟨-, hget⟩ := lowerDecls_functions hd
          rw [hget i (by simp [hfns, hlenPre])]
          have : ctxPost.functions_.length = i := by rw [hfns, hlenPre]
          rw [← this, List.get?_concat_length]

/-- Unfolding of a successful `Run()`: the module handle was present, the
three phases each succeeded in order, and the completed module was moved
out of the context. -/
theorem Run_some_spec {h : Handlers} {ctx : LoweringContext}
    {m : LLVMModule} {ctxF : LoweringContext}
    (hr : ctx.Run h = some (m, ctxF)) :
    ∃ mod0 ctxT ctxD ctxE,
      ctx.llvm_module_ = some mod0 ∧
      lowerTypes { ctx with types_ := [] } ctx.semantics_ir_.types =
        some ctxT ∧
      lowerDecls { ctxT with functions_ := [] }
        (List.range ctxT.semantics_ir_.functions.length) = some ctxD ∧
      lowerDefs h ctxD (List.range ctxD.semantics_ir_.functions.length) =
        some ctxE ∧
      ctxE.llvm_module_ = some m ∧
      ctxF = { ctxE with llvm_module_ := none } := by
  simp only [LoweringContext.Run, bind, Option.bind_eq_some] at hr
  obtain ⟨mod0, hmod0, ctxT, hT, ctxD, hD, ctxE, hE, mFin, hmFin, hr⟩ := hr
  simp only [Option.some.injEq, Prod.mk.injEq] at hr
  exact ⟨mod0, ctxT, ctxD, ctxE, hmod0, hT, hD, hE, hr.1 ▸ hmFin,
    hr.2.symm⟩

/-! ## The specified properties -/

/-- C3: `BuildType` on a built-in type id always yields the fixed target
type for that built-in: the generic integer type yields the 32-bit
integer target type, the generic floating-point type yields the 64-bit
float (double) target type, and the empty-tuple type yields a zero-member
aggregate type tagged with that built-in's canonical name. -/
theorem C3_buildType_builtin_stable (ctx : LoweringContext) :
    ctx.BuildType SemanticsBuiltinKind.IntegerType =
      some (.IntegerTy 32) ∧
    ctx.BuildType SemanticsBuiltinKind.FloatingPointType =
      some .DoubleTy ∧
    ctx.BuildType SemanticsBuiltinKind.EmptyTupleType =
      some (.StructTy
        (SemanticsBuiltinKind.name SemanticsBuiltinKind.EmptyTupleType)
        []) :=
  ⟨rfl, rfl, rfl⟩

/-- The address-kind branch of `GetLocalLoaded`, fully computed: the
loaded value is fresh and one load instruction is appended. -/
theorem GetLocalLoaded_load {ctx : LoweringContext} {node_id : Nat}
    {value : LLVMValue} {node : SemanticsNode} {load_type : LLVMType}
    (hlocal : ctx.GetLocal node_id = some value)
    (hv : value.isAllocaOrGEP = true)
    (hnode : ctx.semantics_ir_.GetNode node_id = some node)
    (hty : ctx.GetType node.type_id = some load_type) :
    ctx.GetLocalLoaded node_id =
      some (.LoadInst load_type ctx.builder_.nextId,
        { ctx with builder_ :=
            { ctx.builder_ with
                instructions := ctx.builder_.instructions ++
                  [.Load load_type value ctx.builder_.nextId]
                nextId := ctx.builder_.nextId + 1 } }) := by
  simp only [LoweringContext.GetLocalLoaded, hlocal, bind,
    Option.some_bind, hv, if_true, hnode, hty, Builder.CreateLoad]

/-- C1: for a node id recorded in the Local Value Environment,
`GetLocalLoaded` returns the recorded target value unchanged when it is
not address-kind; when it is address-kind (a stack allocation or a
computed element address) it emits a load of the node's declared type
from that address and returns the loaded value.  The decision depends
only on the kind of the recorded value; the environment entry is left in
place and no loaded result is cached, so the decision is re-made on
every access and a second access emits a second load. -/
theorem C1_getLocalLoaded (ctx : LoweringContext) (node_id : Nat)
    (value : LLVMValue) (hlocal : ctx.GetLocal node_id = some value) :
    (value.isAllocaOrGEP = false →
      ctx.GetLocalLoaded node_id = some (value, ctx)) ∧
    (∀ node load_type, value.isAllocaOrGEP = true →
      ctx.semantics_ir_.GetNode node_id = some node →
      ctx.GetType node.type_id = some load_type →
      ctx.GetLocalLoaded node_id =
        some (.LoadInst load_type ctx.builder_.nextId,
          { ctx with builder_ :=
              { ctx.builder_ with
                  instructions := ctx.builder_.instructions ++
                    [.Load load_type value ctx.builder_.nextId]
                  nextId := ctx.builder_.nextId + 1 } })) ∧
    (∀ r ctx', ctx.GetLocalLoaded node_id = some (r, ctx') →
      ctx'.locals_ = ctx.locals_ ∧ ctx'.GetLocal node_id = some value) ∧
    (∀ r ctx', value.isAllocaOrGEP = true →
      ctx.GetLocalLoaded node_id = some (r, ctx') →
      ∃ r' ctx'' lt,
        ctx'.GetLocalLoaded node_id = some (r', ctx'') ∧
        ctx''.builder_.instructions =
          ctx.builder_.instructions ++
            [.Load lt value ctx.builder_.nextId,
             .Load lt value ctx'.builder_.nextId]) := by
  refine ⟨?_, ?_, ?_, ?_⟩
  · intro hv
    simp [LoweringContext.GetLocalLoaded, hlocal, hv, bind]
  · intro node load_type hv hnode hty
    exact GetLocalLoaded_load hlocal hv hnode hty
  · intro r ctx' hcall
    simp only [LoweringContext.GetLocalLoaded, hlocal, bind,
      Option.some_bind] at hcall
    cases hv : value.isAllocaOrGEP with
    | false =>
        rw [hv] at hcall
        simp only [Bool.false_eq_true, if_false] at hcall
        cases hcall
        exact ⟨rfl, hlocal⟩
    | true =>
        rw [hv] at hcall
        simp only [if_true] at hcall
        simp only [bind, Option.bind_eq_some] at hcall
        obtain ⟨node, hnode, load_type, hty, hcall⟩ := hcall
        simp only [Builder.CreateLoad, Option.some.injEq,
          Prod.mk.injEq] at hcall
        obtain ⟨-, rfl⟩ := hcall
        exact ⟨rfl, hlocal⟩
  · intro r ctx' hv hcall
    simp only [LoweringContext.GetLocalLoaded, hlocal, bind,
      Option.some_bind, hv, if_true] at hcall
    simp only [bind, Option.bind_eq_some] at hcall
    obtain ⟨node, hnode, load_type, hty, hcall⟩ := hcall
    simp only [Builder.CreateLoad, Option.some.injEq, Prod.mk.injEq] at hcall
    obtain ⟨-, rfl⟩ := hcall
    have hsecond := @GetLocalLoaded_load
      { ctx with builder_ :=
        { ctx.builder_ with
            instructions := ctx.builder_.instructions ++
              [.Load load_type value ctx.builder_.nextId]
            nextId := ctx.builder_.nextId + 1 } }
      node_id value node load_type hlocal hv hnode hty
    exact ⟨_, _, load_type, hsecond, by simp⟩

/-- C1 witness: at `loadCtx`, node 6's recorded value is a stack
allocation, so the access loads the node's 32-bit integer type and
appends exactly one load instruction. -/
theorem C1_witness :
    loadCtx.GetLocalLoaded 6 =
      some (.LoadInst (.IntegerTy 32) loadCtx.builder_.nextId,
        { loadCtx with builder_ :=
            { loadCtx.builder_ with
                instructions := loadCtx.builder_.instructions ++
                  [.Load (.IntegerTy 32) (.AllocaInst 0)
                    loadCtx.builder_.nextId]
                nextId := loadCtx.builder_.nextId + 1 } }) :=
  (C1_getLocalLoaded loadCtx 6 (.AllocaInst 0) rfl).2.1
    ⟨.OtherKind 2, 2, 0, 0⟩ (.IntegerTy 32) rfl rfl rfl

/-- C7: a function declaration with no declared return type lowers to a
signature whose return type equals the lowered empty-tuple type; with a
declared return type, the signature's return type equals the looked-up
lowered type of that reference. -/
theorem C7_return_type (ctx : LoweringContext) (function_id : Nat)
    (function : SemanticsFunction) (hdl : Nat) (ctx' : LoweringContext)
    (hf : ctx.semantics_ir_.GetFunction function_id = some function)
    (hdecl : ctx.BuildFunctionDeclaration function_id = some (hdl, ctx')) :
    ∃ mod fn,
      ctx'.llvm_module_ = some mod ∧ mod.functions.get? hdl = some fn ∧
      (function.return_type_id = none →
        ctx.GetType ctx.semantics_ir_.empty_tuple_type_id =
          some fn.returnType) ∧
      (∀ rt, function.return_type_id = some rt →
        ctx.GetType rt = some fn.returnType) := by
  obtain ⟨f, prefs, args, rtv, fname, pnames, mod, hf', hprefs, hargs,
    hrt, hname, hpnames, hmod, hhdl, hctx'⟩ :=
    BuildFunctionDeclaration_some_spec hdecl
  have hff : f = function := by
    rw [hf] at hf'
    exact (Option.some.inj hf').symm
  subst hff
  subst hctx'
  subst hhdl
  refine ⟨_, ⟨fname, args, rtv, pnames⟩, rfl, ?_, ?_, ?_⟩
  · exact List.get?_concat_length _ _
  · intro hnone
    rw [hnone] at hrt
    exact hrt
  · intro rt hsome
    rw [hsome] at hrt
    exact hrt

/-- C7 witness: declaring `ext` (function 1 of `exampleIR`, which has no
declared return type) on `declCtx` produces a function whose return type
is the lowered empty-tuple type. -/
theorem C7_witness :
    ∃ mod fn,
      extDeclPair.2.llvm_module_ = some mod ∧
      mod.functions.get? extDeclPair.1 = some fn ∧
      ((⟨3, 4, none, none⟩ : SemanticsFunction).return_type_id = none →
        declCtx.GetType declCtx.semantics_ir_.empty_tuple_type_id =
          some fn.returnType) ∧
      (∀ rt, (⟨3, 4, none, none⟩ : SemanticsFunction).return_type_id =
          some rt → declCtx.GetType rt = some fn.returnType) :=
  C7_return_type declCtx 1 ⟨3, 4, none, none⟩ extDeclPair.1 extDeclPair.2
    rfl (@Option.some_get _ (declCtx.BuildFunctionDeclaration 1) rfl).symm

/-- `exampleCtx`'s run succeeds and produces exactly `exampleRunPair`. -/
theorem exampleRun_eq :
    exampleCtx.Run handlersId = some (exampleRunPair.1, exampleRunPair.2) :=
  (@Option.some_get _ (exampleCtx.Run handlersId) rfl).symm

/-- C9: a successful `Run` moves the module out, leaving the context's
module handle empty, and `Run` on any context with an empty module handle
fails fatally at the entry check — so in particular a second `Run` on
the same context aborts. -/
theorem C9_run_consumes_context (h : Handlers) (ctx : LoweringContext)
    (m : LLVMModule) (ctx' : LoweringContext)
    (hrun : ctx.Run h = some (m, ctx')) :
    ctx'.llvm_module_ = none ∧ ctx'.Run h = none ∧
    (∀ c : LoweringContext, c.llvm_module_ = none → c.Run h = none) := by
  have hnone : ∀ c : LoweringContext, c.llvm_module_ = none →
      c.Run h = none := by
    intro c hc
    simp only [LoweringContext.Run, hc, bind, Option.none_bind]
  obtain ⟨mod0, ctxT, ctxD, ctxE, -, -, -, -, -, hF⟩ := Run_some_spec hrun
  subst hF
  exact ⟨rfl, hnone _ rfl, hnone⟩

/-- C9 witness: running the pipeline on `exampleCtx` succeeds, and a
second `Run` on the spent context fails. -/
theorem C9_witness : exampleRunPair.2.Run handlersId = none :=
  (C9_run_consumes_context handlersId exampleCtx exampleRunPair.1
    exampleRunPair.2 exampleRun_eq).2.1

/-- C8: definition lowering of a function with no body block returns
immediately with the context unchanged — zero instructions emitted, no
basic block created, the Local Value Environment untouched — while the
declaration phase still populates a Function Cache entry for it. -/
theorem C8_no_body_noop (h : Handlers) (ctx : LoweringContext)
    (function_id : Nat) (function : SemanticsFunction)
    (hf : ctx.semantics_ir_.GetFunction function_id = some function)
    (hnobody : function.body_id = none) :
    ctx.BuildFunctionDefinition h function_id = some ctx ∧
    (∀ ctx' : LoweringContext,
      ctx.BuildFunctionDefinition h function_id = some ctx' →
      ctx'.builder_.instructions = ctx.builder_.instructions ∧
      ctx'.builder_.blocks = ctx.builder_.blocks ∧
      ctx'.locals_ = ctx.locals_) ∧
    (∀ c ctxD : LoweringContext, c.semantics_ir_ = ctx.semantics_ir_ →
      lowerDecls { c with functions_ := [] }
        (List.range c.semantics_ir_.functions.length) = some ctxD →
      ∃ hdl, ctxD.GetFunction function_id = some hdl) := by
  have hnoop : ctx.BuildFunctionDefinition h function_id = some ctx := by
    simp only [LoweringContext.BuildFunctionDefinition, hf, bind,
      Option.some_bind, hnobody]
  refine ⟨hnoop, ?_, ?_⟩
  · intro ctx' hd
    rw [hnoop] at hd
    cases hd
    exact ⟨rfl, rfl, rfl⟩
  · intro c ctxD hceq hdecls
    obtain ⟨hlen, -⟩ := lowerDecls_functions hdecls
    have hlt : function_id < c.semantics_ir_.functions.length := by
      rw [hceq]
      exact (List.get?_eq_some.mp hf).1
    have hlt' : function_id < ctxD.functions_.length := by
      rw [hlen]
      simpa using hlt
    exact ⟨ctxD.functions_.get ⟨function_id, hlt'⟩,
      List.get?_eq_get hlt'⟩

/-- C8 witness: `ext` (function 1 of `exampleIR`) has no body, and its
definition lowering leaves `exampleCtx` exactly as it was. -/
theorem C8_witness :
    exampleCtx.BuildFunctionDefinition handlersId 1 = some exampleCtx :=
  (C8_no_body_noop handlersId exampleCtx 1 ⟨3, 4, none, none⟩ rfl rfl).1

/-- C4: for a type id outside the built-in range, `BuildType` fails
fatally unless the dereferenced node is a struct-type node all of whose
member type ids fall in the built-in range: a non-struct node kind is
fatal, a struct member whose type id lies outside the built-in range is
fatal, and otherwise the result is the named aggregate type over the
lowered member types, in member order. -/
theorem C4_buildType_outside_builtins (ctx : LoweringContext)
    (node_id : Nat) (node : SemanticsNode)
    (hout : SemanticsBuiltinKind.ValidCount ≤ node_id)
    (hnode : ctx.semantics_ir_.GetNode node_id = some node) :
    (node.kind ≠ .StructType → ctx.BuildType node_id = none) ∧
    (∀ refs, node.kind = .StructType →
      ctx.semantics_ir_.GetNodeBlock node.GetAsStructType = some refs →
      ((∃ ref ∈ refs, ∃ refNode,
          ctx.semantics_ir_.GetNode ref = some refNode ∧
          SemanticsBuiltinKind.ValidCount ≤ refNode.type_id) →
        ctx.BuildType node_id = none) ∧
      (∀ subtypes, mapOption ctx.structMemberType refs = some subtypes →
        ctx.BuildType node_id =
          some (.StructTy "StructLiteralType" subtypes) ∧
        subtypes.length = refs.length ∧
        ∀ i r, refs.get? i = some r → ∃ refNode ty,
          ctx.semantics_ir_.GetNode r = some refNode ∧
          refNode.type_id < SemanticsBuiltinKind.ValidCount ∧
          ctx.GetType refNode.type_id = some ty ∧
          subtypes.get? i = some ty)) := by
  have h0 : ¬ node_id = SemanticsBuiltinKind.EmptyTupleType := by
    simp only [SemanticsBuiltinKind.ValidCount] at hout
    simp only [SemanticsBuiltinKind.EmptyTupleType]
    omega
  have h1 : ¬ node_id = SemanticsBuiltinKind.FloatingPointType := by
    simp only [SemanticsBuiltinKind.ValidCount] at hout
    simp only [SemanticsBuiltinKind.FloatingPointType]
    omega
  have h2 : ¬ node_id = SemanticsBuiltinKind.IntegerType := by
    simp only [SemanticsBuiltinKind.ValidCount] at hout
    simp only [SemanticsBuiltinKind.IntegerType]
    omega
  constructor
  · intro hkind
    simp only [LoweringContext.BuildType, if_neg h0, if_neg h1, if_neg h2,
      hnode, bind, Option.some_bind]
  · intro refs hkind hrefs
    constructor
    · rintro ⟨ref, href, refNode, hrefNode, hbig⟩
      have hmem : ctx.structMemberType ref = none := by
        simp only [LoweringContext.structMemberType, hrefNode, bind,
          Option.some_bind]
        rw [if_neg (by omega)]
      simp only [LoweringContext.BuildType, if_neg h0, if_neg h1,
        if_neg h2, hnode, bind, Option.some_bind, hkind, hrefs,
        mapOption_none_of_mem ctx.structMemberType href hmem,
        Option.none_bind]
    · intro subtypes hmap
      refine ⟨?_, mapOption_length _ hmap, ?_⟩
      · simp only [LoweringContext.BuildType, if_neg h0, if_neg h1,
          if_neg h2, hnode, bind, Option.some_bind, hkind, hrefs, hmap]
      · intro i r hr
        obtain ⟨ty, hty, hmt⟩ := mapOption_get? _ hmap i r hr
        simp only [LoweringContext.structMemberType, bind,
          Option.bind_eq_some] at hmt
        obtain ⟨refNode, hrefNode, hmt⟩ := hmt
        by_cases hlt : refNode.type_id < SemanticsBuiltinKind.ValidCount
        · rw [if_pos hlt] at hmt
          exact ⟨refNode, ty, hrefNode, hlt, hmt, hty⟩
        · rw [if_neg hlt] at hmt
          cases hmt

/-- C4 witness: node 5 of `exampleIR` is a struct-type node over two
built-in-typed members; on `declCtx` it lowers to the named aggregate
over two 32-bit integers. -/
theorem C4_witness :
    declCtx.BuildType 5 =
      some (.StructTy "StructLiteralType" [.IntegerTy 32, .IntegerTy 32]) :=
  (((C4_buildType_outside_builtins declCtx 5 ⟨.StructType, 0, 1, 0⟩
    (by decide) rfl).2 [3, 4] rfl rfl).2 [.IntegerTy 32, .IntegerTy 32]
    rfl).1

/-- Definition lowering of a function with a body fails fatally whenever
the parameter storage ids are not pairwise distinct. -/
theorem BuildFunctionDefinition_dup_none (h : Handlers)
    (ctx : LoweringContext) (function_id : Nat)
    (function : SemanticsFunction) (body_id : Nat)
    (param_refs storages : List Nat)
    (hf : ctx.semantics_ir_.GetFunction function_id = some function)
    (hbody : function.body_id = some body_id)
    (hempty : ctx.locals_ = [])
    (hrefs : ctx.semantics_ir_.GetNodeBlock function.param_refs_id =
      some param_refs)
    (hstor : mapOption (storageOf ctx.semantics_ir_) param_refs =
      some storages)
    (hdup : ¬ storages.Nodup) :
    ctx.BuildFunctionDefinition h function_id = none := by
  simp only [LoweringContext.BuildFunctionDefinition, hf, bind,
    Option.some_bind, hbody]
  cases hfn : ctx.GetFunction function_id with
  | none => rfl
  | some g =>
      simp only [Option.some_bind, hempty, List.isEmpty_nil, if_true,
        hrefs]
      rw [bindParams_none ctx.semantics_ir_ g param_refs storages 0 []
        hstor (fun hc => hdup hc.1)]
      rfl

/-- C5: a function whose parameter list binds two parameters to the same
storage id makes definition lowering fail fatally — the second insertion
is rejected rather than overwriting the first mapping, as the prefix of
distinct storages binds successfully — and when all storage ids are
distinct, each storage id is mapped to the corresponding target function
argument, in parameter order. -/
theorem C5_duplicate_param_fatal (h : Handlers) (ctx : LoweringContext)
    (function_id : Nat) (function : SemanticsFunction) (body_id : Nat)
    (llvm_function : Nat) (param_refs storages : List Nat)
    (hf : ctx.semantics_ir_.GetFunction function_id = some function)
    (hbody : function.body_id = some body_id)
    (hempty : ctx.locals_ = [])
    (hrefs : ctx.semantics_ir_.GetNodeBlock function.param_refs_id =
      some param_refs)
    (hstor : mapOption (storageOf ctx.semantics_ir_) param_refs =
      some storages) :
    (¬ storages.Nodup →
      ctx.BuildFunctionDefinition h function_id = none) ∧
    (storages.Nodup →
      bindParams ctx.semantics_ir_ llvm_function param_refs 0 [] =
        some (argPairs llvm_function 0 storages)) ∧
    (∀ k, (storages.take k).Nodup →
      bindParams ctx.semantics_ir_ llvm_function (param_refs.take k) 0 [] =
        some (argPairs llvm_function 0 (storages.take k))) := by
  refine ⟨?_, ?_, ?_⟩
  · intro hdup
    exact BuildFunctionDefinition_dup_none h ctx function_id function
      body_id param_refs storages hf hbody hempty hrefs hstor hdup
  · intro hnodup
    have hb := bindParams_some ctx.semantics_ir_ llvm_function param_refs
      storages 0 [] hstor hnodup (fun s _ p hp => absurd hp (List.not_mem_nil p))
    simpa using hb
  · intro k hnodup
    have hb := bindParams_some ctx.semantics_ir_ llvm_function
      (param_refs.take k) (storages.take k) 0 []
      (mapOption_take _ hstor k) hnodup
      (fun s _ p hp => absurd hp (List.not_mem_nil p))
    simpa using hb

/-- C5 witness: `dupIR`'s function binds both parameters to storage node
8, and its definition lowering on `dupCtx` fails fatally. -/
theorem C5_witness :
    dupCtx.BuildFunctionDefinition handlersId 0 = none :=
  (C5_duplicate_param_fatal handlersId dupCtx 0 ⟨4, 3, some 2, some 2⟩ 2 0
    [3, 7] [8, 8] rfl rfl rfl rfl rfl).1 (by decide)

/-- C6: the Local Value Environment is empty immediately before each
function's definition lowering begins — for a function with a body a
non-empty environment fails the fatal entry check — and empty
immediately after it completes: with a body it is cleared
unconditionally, whatever the handlers inserted, and without a body it
is left untouched (hence still empty within a run). -/
theorem C6_locals_empty_invariant (h : Handlers) :
    (∀ ctx function_id function body_id,
      (ctx : LoweringContext).semantics_ir_.GetFunction function_id =
        some function →
      function.body_id = some body_id →
      ctx.locals_ ≠ [] →
      ctx.BuildFunctionDefinition h function_id = none) ∧
    (∀ ctx function_id function body_id ctx',
      (ctx : LoweringContext).semantics_ir_.GetFunction function_id =
        some function →
      function.body_id = some body_id →
      ctx.BuildFunctionDefinition h function_id = some ctx' →
      ctx'.locals_ = []) ∧
    (∀ ctx function_id ctx',
      (ctx : LoweringContext).locals_ = [] →
      ctx.BuildFunctionDefinition h function_id = some ctx' →
      ctx'.locals_ = []) := by
  have hclear : ∀ ctx function_id function body_id ctx',
      (ctx : LoweringContext).semantics_ir_.GetFunction function_id =
        some function →
      function.body_id = some body_id →
      ctx.BuildFunctionDefinition h function_id = some ctx' →
      ctx'.locals_ = [] := by
    intro ctx function_id function body_id ctx' hf hbody hd
    simp only [LoweringContext.BuildFunctionDefinition, bind,
      Option.bind_eq_some] at hd
    obtain ⟨f', hf', hd⟩ := hd
    rw [hf] at hf'
    cases Option.some.inj hf'
    rw [hbody] at hd
    simp only [bind, Option.bind_eq_some] at hd
    obtain ⟨g, hg, hd⟩ := hd
    by_cases hemp : ctx.locals_.isEmpty = true
    · rw [if_pos hemp] at hd
      simp only [bind, Option.bind_eq_some] at hd
      obtain ⟨prefs, hprefs, locals, hlocals, body, hbody', ctxB, hctxB,
        hd⟩ := hd
      cases hd
      rfl
    · rw [if_neg hemp] at hd
      cases hd
  refine ⟨?_, hclear, ?_⟩
  · intro ctx function_id function body_id hf hbody hne
    simp only [LoweringContext.BuildFunctionDefinition, hf, bind,
      Option.some_bind, hbody]
    cases hfn : ctx.GetFunction function_id with
    | none => rfl
    | some g =>
        simp only [Option.some_bind]
        have hfalse : ctx.locals_.isEmpty = false := by
          cases hl : ctx.locals_ with
          | nil => exact absurd hl hne
          | cons p rest => rfl
        rw [if_neg (by simp [hfalse])]
  · intro ctx function_id ctx' hempty hd
    simp only [LoweringContext.BuildFunctionDefinition, bind,
      Option.bind_eq_some] at hd
    obtain ⟨f', hf', hd⟩ := hd
    cases hb : f'.body_id with
    | none =>
        rw [hb] at hd
        cases hd
        exact hempty
    | some body_id =>
        exact hclear ctx function_id f' body_id ctx' hf' hb
          (by simp only [LoweringContext.BuildFunctionDefinition, hf',
                bind, Option.some_bind]
              rw [hb] at hd ⊢
              exact hd)

/-- C6 witness: `dupCtxBad` enters definition lowering of a function
with a body while its environment holds a stale entry, and the fatal
entry check rejects it. -/
theorem C6_witness :
    dupCtxBad.BuildFunctionDefinition handlersId 0 = none :=
  (C6_locals_empty_invariant handlersId).1 dupCtxBad 0
    ⟨4, 3, some 2, some 2⟩ 2 rfl rfl (List.cons_ne_nil _ _)

/-- C10: declaration lowering never reads or writes the Local Value
Environment — a successful `BuildFunctionDeclaration` leaves the
environment exactly as it was, and its outcome is the same whatever the
environment holds — so in particular a function binding two parameters
to the same storage id is declared successfully and the duplicate is
only detected later, during definition lowering, which then fails. -/
theorem C10_decl_ignores_locals (ctx : LoweringContext)
    (function_id : Nat) :
    (∀ hdl ctx',
      ctx.BuildFunctionDeclaration function_id = some (hdl, ctx') →
      ctx'.locals_ = ctx.locals_) ∧
    (∀ l, ({ ctx with locals_ := l } :
        LoweringContext).BuildFunctionDeclaration function_id =
      (ctx.BuildFunctionDeclaration function_id).map
        (fun r => (r.1, { r.2 with locals_ := l }))) ∧
    (∀ h function body_id param_refs storages hdl ctx',
      ctx.semantics_ir_.GetFunction function_id = some function →
      function.body_id = some body_id →
      ctx.semantics_ir_.GetNodeBlock function.param_refs_id =
        some param_refs →
      mapOption (storageOf ctx.semantics_ir_) param_refs = some storages →
      ¬ storages.Nodup →
      ctx.BuildFunctionDeclaration function_id = some (hdl, ctx') →
      ctx'.locals_ = ctx.locals_ ∧
      (ctx'.locals_ = [] →
        ctx'.BuildFunctionDefinition h function_id = none)) := by
  have hframe : ∀ hdl ctx',
      ctx.BuildFunctionDeclaration function_id = some (hdl, ctx') →
      ctx'.locals_ = ctx.locals_ := by
    intro hdl ctx' hdecl
    exact (BuildFunctionDeclaration_frame hdecl).2.2.2.1
  refine ⟨hframe, ?_, ?_⟩
  · intro l
    obtain ⟨mo, bu, ir, ty, fns, lo⟩ := ctx
    simp only [LoweringContext.BuildFunctionDeclaration,
      LoweringContext.GetType]
    cases ir.GetFunction function_id with
    | none => rfl
    | some f =>
        simp only [bind, Option.some_bind]
        cases ir.GetNodeBlock f.param_refs_id with
        | none => rfl
        | some prefs =>
            simp only [Option.some_bind]
            cases mapOption (fun ref => (ir.GetNode ref).bind
                (fun node => ty.get? node.type_id)) prefs with
            | none => rfl
            | some args =>
                simp only [Option.some_bind]
                cases ty.get? (match f.return_type_id with
                  | some id => id
                  | none => ir.empty_tuple_type_id) with
                | none => rfl
                | some rt =>
                    simp only [Option.some_bind]
                    cases ir.GetString f.name_id with
                    | none => rfl
                    | some fname =>
                        simp only [Option.some_bind]
                        cases mapOption (fun ref => (ir.GetNode ref).bind
                            (fun node => ir.GetString
                              node.GetAsBindName.1)) prefs with
                        | none => rfl
                        | some pnames =>
                            simp only [Option.some_bind]
                            cases mo with
                            | none => rfl
                            | some mod => rfl
  · intro h function body_id param_refs storages hdl ctx' hf hbody hrefs
      hstor hdup hdecl
    obtain ⟨e1, e2, e3, e4, e5⟩ := BuildFunctionDeclaration_frame hdecl
    refine ⟨e4, ?_⟩
    intro hempty'
    exact BuildFunctionDefinition_dup_none h ctx' function_id function
      body_id param_refs storages (by rw [e1]; exact hf) hbody hempty'
      (by rw [e1]; exact hrefs) (by rw [e1]; exact hstor) hdup

/-- C10 witness: `dupIR`'s function, which binds two parameters to
storage node 8, is declared successfully on `dupCtx`, and definition
lowering on the resulting context then fails. -/
theorem C10_witness :
    dupDeclPair.2.BuildFunctionDefinition handlersId 0 = none := by
  have X := (C10_decl_ignores_locals dupCtx 0).2.2 handlersId
    ⟨4, 3, some 2, some 2⟩ 2 [3, 7] [8, 8] dupDeclPair.1 dupDeclPair.2
    rfl rfl rfl rfl (by decide)
    (@Option.some_get _ (dupCtx.BuildFunctionDeclaration 0) rfl).symm
  exact X.2 (X.1.trans rfl)

/-- C2: in a successful run, the declaration phase populates one
Function Cache entry per function id before any definition lowering
begins, entry `i` is exactly the handle produced by declaration lowering
of function `i`, the definition phase never modifies the cache, and so
the handle definition lowering of any function looks up is identical to
the one its declaration lowering produced. -/
theorem C2_decl_handle_identity (h : Handlers) (ctx : LoweringContext)
    (m : LLVMModule) (ctxF : LoweringContext)
    (hrun : ctx.Run h = some (m, ctxF)) :
    ∃ ctxT ctxD ctxE,
      lowerTypes { ctx with types_ := [] } ctx.semantics_ir_.types =
        some ctxT ∧
      lowerDecls { ctxT with functions_ := [] }
        (List.range ctx.semantics_ir_.functions.length) = some ctxD ∧
      lowerDefs h ctxD (List.range ctx.semantics_ir_.functions.length) =
        some ctxE ∧
      ctxD.functions_.length = ctx.semantics_ir_.functions.length ∧
      (∀ i, i < ctx.semantics_ir_.functions.length →
        ctxD.GetFunction i ≠ none) ∧
      ctxE.functions_ = ctxD.functions_ ∧
      (∀ i, i < ctx.semantics_ir_.functions.length →
        ∃ ctxPre hdl ctxPost ctxStep,
          lowerDecls { ctxT with functions_ := [] } (List.range i) =
            some ctxPre ∧
          ctxPre.BuildFunctionDeclaration i = some (hdl, ctxPost) ∧
          ctxD.GetFunction i = some hdl ∧
          lowerDefs h ctxD (List.range i) = some ctxStep ∧
          ctxStep.GetFunction i = some hdl) := by
  obtain ⟨mod0, ctxT, ctxD, ctxE, hmod0, hT, hD, hE, hEm, hF⟩ :=
    Run_some_spec hrun
  have hTir : ctxT.semantics_ir_ = ctx.semantics_ir_ := by
    have e := (lowerTypes_frame hT).1
    simpa using e
  have hlenT : ctxT.semantics_ir_.functions.length =
      ctx.semantics_ir_.functions.length := by rw [hTir]
  rw [hlenT] at hD
  have hDir : ctxD.semantics_ir_ = ctx.semantics_ir_ := by
    have e := (lowerDecls_frame hD).1
    simp only at e
    rw [e]
    exact hTir
  have hlenD : ctxD.semantics_ir_.functions.length =
      ctx.semantics_ir_.functions.length := by rw [hDir]
  rw [hlenD] at hE
  have hn : ctxD.functions_.length =
      ctx.semantics_ir_.functions.length := by
    obtain ⟨hlen, -⟩ := lowerDecls_functions hD
    simpa using hlen
  refine ⟨ctxT, ctxD, ctxE, hT, hD, hE, hn, ?_,
    (lowerDefs_frame hE).2.2.1, ?_⟩
  · intro i hi
    rw [LoweringContext.GetFunction,
      List.get?_eq_get (show i < ctxD.functions_.length by omega)]
    simp
  · intro i hi
    obtain ⟨ctxPre, hdl, ctxPost, hpre, hlenPre, hdecl, hentry⟩ :=
      lowerDecls_entry rfl hD hi
    have hsplit : List.range ctx.semantics_ir_.functions.length =
        List.range i ++
          (List.range (ctx.semantics_ir_.functions.length - i)).map
            (fun x => i + x) := by
      have h1 : ctx.semantics_ir_.functions.length =
          i + (ctx.semantics_ir_.functions.length - i) := by omega
      nth_rewrite 1 [h1]
      rw [List.range_add]
    rw [hsplit, lowerDefs_append] at hE
    cases hstep : lowerDefs h ctxD (List.range i) with
    | none => rw [hstep] at hE; cases hE
    | some ctxStep =>
        refine ⟨ctxPre, hdl, ctxPost, ctxStep, hpre, hdecl, hentry, rfl,
          ?_⟩
        have hfns : ctxStep.functions_ = ctxD.functions_ :=
          (lowerDefs_frame hstep).2.2.1
        rw [LoweringContext.GetFunction, hfns]
        exact hentry

/-- C2 witness: the run on `exampleCtx` succeeds and decomposes as the
theorem states. -/
theorem C2_witness :
    ∃ ctxT ctxD ctxE,
      lowerTypes { exampleCtx with types_ := [] }
        exampleCtx.semantics_ir_.types = some ctxT ∧
      lowerDecls { ctxT with functions_ := [] }
        (List.range exampleCtx.semantics_ir_.functions.length) =
          some ctxD ∧
      lowerDefs handlersId ctxD
        (List.range exampleCtx.semantics_ir_.functions.length) =
          some ctxE ∧
      ctxD.functions_.length =
        exampleCtx.semantics_ir_.functions.length ∧
      (∀ i, i < exampleCtx.semantics_ir_.functions.length →
        ctxD.GetFunction i ≠ none) ∧
      ctxE.functions_ = ctxD.functions_ ∧
      (∀ i, i < exampleCtx.semantics_ir_.functions.length →
        ∃ ctxPre hdl ctxPost ctxStep,
          lowerDecls { ctxT with functions_ := [] } (List.range i) =
            some ctxPre ∧
          ctxPre.BuildFunctionDeclaration i = some (hdl, ctxPost) ∧
          ctxD.GetFunction i = some hdl ∧
          lowerDefs handlersId ctxD (List.range i) = some ctxStep ∧
          ctxStep.GetFunction i = some hdl) :=
  C2_decl_handle_identity handlersId exampleCtx exampleRunPair.1
    exampleRunPair.2 exampleRun_eq

end Lowering
